import Mathlib

/-!
Dashboard component (`Dashboard_20250826224331.jsx`).

A shallow embedding of the stateful part of the `Dashboard` React component:
the fixed patient records and their search filter, the upload intake, the
simulated classifier, the report export and the theme button.

Conventions of the embedding:

* a JavaScript string is a list of characters (`JsString`);
* a JavaScript number is known by its value, an exact rational (`ℚ`); the
  product `confidence*100` that the page and the report format is rounded to
  binary64 as the host does (`jsMul`), while the draws of `Math.random()` and
  the score computed from them are taken as exact rationals;
* `null` is `none`;
* host built-ins whose result the component only passes along
  (`String.prototype.toLowerCase`, `Date.prototype.toLocaleString`,
  `Math.random`) are parameters of the definitions that call them.
-/

namespace Dashboard

/-! ## Strings -/

/-- A JavaScript string value. -/
abbrev JsString := List Char

/-- The call `s.includes(search)` of `String.prototype.includes`: scan the start
positions of `s` from left to right and report whether `search` occurs at one of
them. The empty `search` occurs at position 0 of every string. -/
def includes : JsString → JsString → Bool
  | [], search => search.isEmpty
  | c :: cs, search => search.isPrefixOf (c :: cs) || includes cs search

/-- Lower-casing of the ASCII letters `A`..`Z`, every other character kept: what
`String.prototype.toLowerCase` does on a string of ASCII characters. -/
def asciiLower (s : JsString) : JsString := s.map Char.toLower

/-- A string made of ASCII characters only. -/
def IsAscii (s : JsString) : Prop := ∀ c ∈ s, c.toNat < 128

/-- The property of the host function `toLowerCase` the concrete scenarios rely
on: on ASCII strings it is ASCII lower-casing. -/
def LowersAscii (toLowerCase : JsString → JsString) : Prop :=
  ∀ s, IsAscii s → toLowerCase s = asciiLower s

/-! ## Patient records -/

/-- One entry of `patientRows`. -/
structure PatientRow where
  id : JsString
  date : JsString
  result : JsString
  confidence : ℚ
  deriving DecidableEq

/-- The constant `patientRows` (source lines 79-84). -/
def patientRows : List PatientRow :=
  [ { id := "PT-1001".toList, date := "2025-02-01".toList,
      result := "No Cancer".toList, confidence := 94 / 100 },
    { id := "PT-1002".toList, date := "2025-02-02".toList,
      result := "Cancer Detected".toList, confidence := 91 / 100 },
    { id := "PT-1003".toList, date := "2025-02-03".toList,
      result := "No Cancer".toList, confidence := 88 / 100 },
    { id := "PT-1004".toList, date := "2025-02-05".toList,
      result := "Cancer Detected".toList, confidence := 82 / 100 } ]

/-- The predicate passed to `patientRows.filter` (source lines 86-89). -/
def rowMatches (toLowerCase : JsString → JsString) (filter : JsString)
    (r : PatientRow) : Bool :=
  includes (toLowerCase r.id) (toLowerCase filter) ||
    includes (toLowerCase r.result) (toLowerCase filter)

/-- The derived value `filteredRows` (source lines 86-89) for the current
`filter` text. -/
def filteredRows (toLowerCase : JsString → JsString) (filter : JsString) :
    List PatientRow :=
  patientRows.filter (rowMatches toLowerCase filter)

/-- The words of the filtering rule: `lowercase(s)` is a substring of
`lowercase(r.id)` or of `lowercase(r.result)`. -/
def MatchesSpec (toLowerCase : JsString → JsString) (s : JsString)
    (r : PatientRow) : Prop :=
  toLowerCase s <:+: toLowerCase r.id ∨ toLowerCase s <:+: toLowerCase r.result

/-! ## Numbers and their rendering -/

/-- The character of the decimal digit `d`. -/
def digitChar (d : Nat) : Char := Char.ofNat (48 + d)

/-- The decimal representation of a non-negative integer: `"0"` for zero, no
leading zero otherwise. -/
def natToDecimal (n : Nat) : JsString :=
  if n = 0 then ['0'] else (Nat.digits 10 n).reverse.map digitChar

/-- The integer `n` for which `n - x` is as close to zero as possible, the
larger one when there are two, for `x ≥ 0` (step 8 of `Number.prototype.toFixed`). -/
def roundHalfUp (x : ℚ) : Nat := (⌊x + 1 / 2⌋).toNat

/-- The call `x.toFixed(f)` of `Number.prototype.toFixed` on an exact rational:
the sign, then the digits of the integer nearest to `|x| * 10^f`, padded with
zeros to `f + 1` digits, with a decimal point before the last `f` digits when
`f ≠ 0`. The exponent notation the host switches to from `10^21` on is not
modelled: the component only formats values below 100. -/
def toFixed (x : ℚ) (f : Nat) : JsString :=
  let sign : JsString := if x < 0 then ['-'] else []
  let n := roundHalfUp (|x| * 10 ^ f)
  let m := natToDecimal n
  let m := if f = 0 then m else
    let m := if m.length ≤ f then List.replicate (f + 1 - m.length) '0' ++ m else m
    m.take (m.length - f) ++ '.' :: m.drop (m.length - f)
  sign ++ m

/-- The integer nearest to `q`, the even one when there are two. -/
def roundHalfEven (q : ℚ) : ℤ :=
  let f := ⌊q⌋
  let r := q - f
  if r < 1 / 2 then f
  else if 1 / 2 < r then f + 1
  else if f % 2 = 0 then f else f + 1

/-- The binary64 number nearest to `x` (round to nearest, ties to even): `x` is
scaled by its power of two to 53 significant bits and rounded there. Subnormal
numbers and overflow are not modelled: the component multiplies confidences by
100. -/
def roundToDouble (x : ℚ) : ℚ :=
  if x = 0 then 0
  else
    let e : ℤ := Int.log 2 |x|
    let ulp : ℚ := 2 ^ (e - 52)
    (if x < 0 then -1 else 1) * (roundHalfEven (|x| / ulp) : ℚ) * ulp

/-- The product `a * b` as the host computes it: the exact product rounded to
binary64. -/
def jsMul (a b : ℚ) : ℚ := roundToDouble (a * b)

/-- The text of the Confidence cell of a history table row (source line 399):
`{(r.confidence*100).toFixed(0)}%`. -/
def historyConfidenceCell (r : PatientRow) : JsString :=
  toFixed (jsMul r.confidence 100) 0 ++ "%".toList

/-- The lines of a text: the pieces between its line feeds. -/
def lines : JsString → List JsString
  | [] => [[]]
  | c :: cs =>
    if c = '\n' then [] :: lines cs
    else
      match lines cs with
      | [] => [[c]]
      | l :: ls => (c :: l) :: ls

/-- A string without a line feed. -/
def NoLineFeed (s : JsString) : Prop := '\n' ∉ s

/-! ## Component state -/

/-- A file handed over by the file picker or by a drop, known by what
`FileReader.readAsDataURL` decodes it to. -/
structure File where
  dataUrl : JsString
  deriving DecidableEq

/-- A file offered to the browser for download by `downloadReport`. -/
structure Download where
  filename : JsString
  mimeType : JsString
  text : JsString
  deriving DecidableEq

/-- The state of the component: the values of its `useState` hooks (source
lines 70-77), followed by what the browser holds for it: the file reads that
were started and have not completed, the number of `setTimeout` callbacks that
were scheduled and have not run, and the files downloaded so far. -/
structure State where
  selectedImage : Option JsString
  dragOver : Bool
  processing : Bool
  result : Option JsString
  confidence : Option ℚ
  filter : JsString
  profileImage : Option JsString
  aboutDesc : JsString
  pendingReads : List JsString
  pendingTimers : Nat
  downloads : List Download
  deriving DecidableEq

/-- The initial text of `aboutDesc` (source line 77). -/
def initialAboutDesc : JsString :=
  ("I am Aditya Verma, a passionate developer focused on building clean, " ++
    "efficient, and scalable solutions. I enjoy collaborating to solve " ++
    "real-world problems with AI and modern web technologies.").toList

/-- The state on first render: the initial values of the hooks, nothing pending. -/
def State.initial : State :=
  { selectedImage := none, dragOver := false, processing := false,
    result := none, confidence := none, filter := [],
    profileImage := none, aboutDesc := initialAboutDesc,
    pendingReads := [], pendingTimers := 0, downloads := [] }

/-- JavaScript truthiness of a string or `null`: `null` and `""` are falsy. -/
def truthyString : Option JsString → Bool
  | none => false
  | some s => !s.isEmpty

/-- JavaScript truthiness of a number or `null`: `null` and `0` are falsy. -/
def truthyNumber : Option ℚ → Bool
  | none => false
  | some c => decide (c ≠ 0)

/-- The label set when the first draw exceeds 0.5 (source line 127). -/
def labelCancer : JsString := "Cancer Detected".toList

/-- The label set otherwise (source line 127). -/
def labelNoCancer : JsString := "No Cancer Detected".toList

/-- The function `onFileSelected` (source lines 95-100): an absent file is
ignored, a present one starts a read. -/
def onFileSelected (s : State) (file : Option File) : State :=
  match file with
  | none => s
  | some f => { s with pendingReads := s.pendingReads ++ [f.dataUrl] }

/-- The handler `reader.onload` (source line 98), run with the decoded data. -/
def readerOnload (s : State) (data : JsString) : State :=
  { s with selectedImage := some data }

/-- The function `onDrop` (source lines 102-108), `file` being
`e.dataTransfer.files?.[0]`. -/
def onDrop (s : State) (file : Option File) : State :=
  onFileSelected { s with dragOver := false } file

/-- The function `onDragOver` (source lines 110-114). -/
def onDragOver (s : State) : State := { s with dragOver := true }

/-- The function `onDragLeave` (source lines 116-118). -/
def onDragLeave (s : State) : State := { s with dragOver := false }

/-- The function `processWithModel` (source lines 120-131) up to the scheduling
of the timer. -/
def processWithModel (s : State) : State :=
  if !truthyString s.selectedImage then s
  else { s with processing := true, pendingTimers := s.pendingTimers + 1 }

/-- The callback given to `setTimeout` (source lines 124-130); `u` and `v` are
the values of its first and second call of `Math.random()`. The score is
computed over exact rationals. -/
def timerCallback (s : State) (u v : ℚ) : State :=
  let detected : Bool := decide (u > 5 / 10)
  let score : ℚ := 8 / 10 + v * (18 / 100)
  { s with
    result := some (if detected then labelCancer else labelNoCancer),
    confidence := some score,
    processing := false }

/-- The interpolation `${result ?? 'N/A'}` of the report (source line 135). -/
def reportPrediction (s : State) : JsString :=
  s.result.getD "N/A".toList

/-- The interpolation `${confidence ? (confidence*100).toFixed(1)+'%' : 'N/A'}`
of the report (source line 135). -/
def reportConfidence (s : State) : JsString :=
  match s.confidence with
  | some c => if c ≠ 0 then toFixed (jsMul c 100) 1 ++ "%".toList else "N/A".toList
  | none => "N/A".toList

/-- The text given to `new Blob` by `downloadReport` (source line 135); `now` is
the value of `new Date().toLocaleString()`. -/
def reportText (s : State) (now : JsString) : JsString :=
  "Lung Cancer AI Report\n\nPrediction: ".toList ++ reportPrediction s ++
    "\nConfidence: ".toList ++ reportConfidence s ++ "\nDate: ".toList ++ now

/-- The function `downloadReport` (source lines 133-143): the file it makes the
browser download. -/
def downloadReport (s : State) (now : JsString) : Download :=
  { filename := "lung-cancer-ai-report.txt".toList,
    mimeType := "text/plain".toList,
    text := reportText s now }

/-- The `disabled` attribute of the Process button (source line 279). -/
def processDisabled (s : State) : Bool :=
  !truthyString s.selectedImage || s.processing

/-- The `disabled` attribute of the Download Report button (source line 313). -/
def downloadDisabled (s : State) : Bool :=
  !truthyString s.result

/-- What can happen to the component. -/
inductive Event where
  /-- Handler `onChange` of the file input, with `e.target.files?.[0]`. -/
  | fileSelected (file : Option File)
  /-- A drop on the upload area. -/
  | drop (file : Option File)
  | dragOver
  | dragLeave
  /-- The pending read at position `i` completes. -/
  | readerLoad (i : Nat)
  /-- A click on the Process button. -/
  | processClick
  /-- A scheduled timer runs its callback, drawing `u` then `v`. -/
  | timerFired (u v : ℚ)
  /-- A click on the Download Report button at the time that prints as `now`. -/
  | downloadClick (now : JsString)
  /-- Handler `onChange` of the search input. -/
  | filterChange (text : JsString)

/-- The values `Math.random()` returns lie in `[0, 1)`. -/
def Event.WellFormed : Event → Prop
  | .timerFired u v => 0 ≤ u ∧ u < 1 ∧ 0 ≤ v ∧ v < 1
  | _ => True

/-- One event applied to a state. A disabled button dispatches no click, a read
completes only if it is pending and a timer callback runs only if it was
scheduled. -/
def step (s : State) : Event → State
  | .fileSelected file => onFileSelected s file
  | .drop file => onDrop s file
  | .dragOver => onDragOver s
  | .dragLeave => onDragLeave s
  | .readerLoad i =>
    match s.pendingReads.get? i with
    | none => s
    | some data => readerOnload { s with pendingReads := s.pendingReads.eraseIdx i } data
  | .processClick => if processDisabled s then s else processWithModel s
  | .timerFired u v =>
    if s.pendingTimers = 0 then s
    else timerCallback { s with pendingTimers := s.pendingTimers - 1 } u v
  | .downloadClick now =>
    if downloadDisabled s then s
    else { s with downloads := s.downloads ++ [downloadReport s now] }
  | .filterChange text => { s with filter := text }

/-- The states the component can be in: the initial one and those an event leads
to from such a state. -/
inductive Reachable : State → Prop where
  | initial : Reachable State.initial
  | step {s : State} (e : Event) : Reachable s → e.WellFormed → Reachable (step s e)

/-- The state reached from `s` by a sequence of events. -/
def run (s : State) (es : List Event) : State := es.foldl step s

/-! ## Invariants of the reachable states -/

/-- Either no outcome is published, or the published label is one of the two
labels and the published confidence lies in `[0.80, 0.98)`. -/
def OutcomeInv (s : State) : Prop :=
  (s.result = none ∧ s.confidence = none) ∨
    ∃ c, (s.result = some labelCancer ∨ s.result = some labelNoCancer) ∧
      s.confidence = some c ∧ 8 / 10 ≤ c ∧ c < 98 / 100

/-- The callbacks that are scheduled: one while `processing` is set, none
otherwise. -/
def TimerInv (s : State) : Prop :=
  s.pendingTimers = if s.processing then 1 else 0

/-! ## Decidability -/

instance (s : JsString) : Decidable (IsAscii s) := by
  unfold IsAscii; infer_instance

instance (toLowerCase : JsString → JsString) (s : JsString) (r : PatientRow) :
    Decidable (MatchesSpec toLowerCase s r) := by
  unfold MatchesSpec; infer_instance

instance (s : JsString) : Decidable (NoLineFeed s) := by
  unfold NoLineFeed; infer_instance

/-! ## A sample session -/

/-- A sample session: a file is picked and read, the Process button is clicked
and the timer runs with the draws 0.75 and 0.5. -/
def demoEvents : List Event :=
  [ .fileSelected (some { dataUrl := "data:image/png;base64,AA==".toList }),
    .readerLoad 0,
    .processClick,
    .timerFired (3 / 4) (1 / 2) ]

/-- The state at the end of the sample session. -/
def demoState : State := run State.initial demoEvents

/-- The state of the sample session after the click, while the timer is pending. -/
def demoBusyState : State := run State.initial (demoEvents.take 3)

/-- A sample value of `new Date().toLocaleString()`. -/
def demoNow : JsString := "8/26/2025, 10:43:31 PM".toList

/-! ## Rendering of the confidence on the page -/

/-- The Confidence badge beside the Result badge (source lines 293-297), when it
is shown: `result` and `confidence` are truthy and its value is
`${(confidence*100).toFixed(1)}%`. -/
def resultBadgeConfidence (s : State) : Option JsString :=
  match s.confidence with
  | some c =>
    if truthyString s.result && truthyNumber (some c) then
      some (toFixed (jsMul c 100) 1 ++ "%".toList)
    else none
  | none => none

/-- The text of the Confidence Score panel (source line 309). -/
def confidencePanel (s : State) : JsString :=
  match s.confidence with
  | some c => if c ≠ 0 then toFixed (jsMul c 100) 1 ++ "%".toList else "–".toList
  | none => "–".toList

/-- The words "a percentage with exactly one decimal place", of the value `x`:
the digits of an integer part, a point, one digit and "%", the decimal so
written being the one nearest to `x`. -/
def PercentOneDecimal (x : ℚ) (str : JsString) : Prop :=
  ∃ n : ℕ, |(n : ℚ) / 10 - x| ≤ 1 / 20 ∧
    str = natToDecimal (n / 10) ++ '.' :: digitChar (n % 10) :: "%".toList

/-- A percentage without decimal place, of the value `x`: the digits of the
integer nearest to `x` and "%". -/
def PercentNoDecimal (x : ℚ) (str : JsString) : Prop :=
  ∃ n : ℕ, |(n : ℚ) - x| ≤ 1 / 2 ∧ str = natToDecimal n ++ "%".toList

/-! ## Theme toggle -/

/-- What the theme button reads and writes: whether the class list of
`document.documentElement` contains 'dark', and the value stored under the key
'theme' of `localStorage`, if there is one. -/
structure ThemeState where
  dark : Bool
  stored : Option JsString
  deriving DecidableEq

/-- The `onClick` handler of the theme button (source lines 175-180). The flag
`writeOk` tells whether `localStorage.setItem` returns; when it throws, the
handler catches the exception and goes on. -/
def toggleTheme (t : ThemeState) (writeOk : Bool) : ThemeState :=
  let next : JsString := if t.dark then "light".toList else "dark".toList
  { dark := !t.dark,
    stored := if writeOk then some next else t.stored }

/-- The value that names a theme in `localStorage`. -/
def themeName (dark : Bool) : JsString :=
  if dark then "dark".toList else "light".toList

/-- Modelled from the spec: the read of the key 'theme' when the page loads,
which is not in the source of the component ("it is read on load to decide
initial theme", "reloading re-applies the last written value"). The stored
value "dark" applies the dark theme and "light" the light theme; for an absent
or any other value the spec names no theme. -/
def loadTheme (stored : Option JsString) : Option Bool :=
  match stored with
  | some v =>
    if v = "dark".toList then some true
    else if v = "light".toList then some false
    else none
  | none => none

/-! ## Counting outcome updates -/

/-- The number of timer callbacks that run, each of which updates the outcome
once, while the events `es` are applied from the state `s`. -/
def outcomeUpdates : State → List Event → Nat
  | _, [] => 0
  | s, e :: es =>
    (match e with
      | .timerFired _ _ => if s.pendingTimers = 0 then 0 else 1
      | _ => 0) + outcomeUpdates (step s e) es

/-! ## A session whose confidence lies next to a rounding tie -/

/-- A binary64 confidence just below 0.8975: its exact product with 100 lies
below 89.75 by a quarter of the spacing of the binary64 numbers there. -/
def tieConfidence : ℚ := 1010495166391255 / 1125899906842624

/-- The second draw for which the timer callback publishes `tieConfidence`. -/
def tieDraw : ℚ := (tieConfidence - 8 / 10) / (18 / 100)

/-- The sample session with `tieDraw` as the second draw. -/
def tieEvents : List Event :=
  demoEvents.take 3 ++ [.timerFired (3 / 4) tieDraw]

/-- The state at the end of that session. -/
def tieState : State := run State.initial tieEvents

/-! ## More invariants and sample states -/

/-- No file has been downloaded as long as no outcome is published. -/
def DownloadInv (s : State) : Prop :=
  s.result = none → s.downloads = []

/-- The state of the sample session once the file is read, before the click on
the Process button. -/
def demoUploadedState : State := run State.initial (demoEvents.take 2)

/-! ## Lemmas on strings -/

theorem includes_iff_substring (s search : JsString) :
    includes s search = true ↔ search <:+: s := by
  induction s with
  | nil =>
    cases search <;> simp [includes]
  | cons c cs ih =>
    simp only [includes, Bool.or_eq_true, ih, List.isPrefixOf_iff_prefix]
    constructor
    · rintro (h | h)
      · exact h.isInfix
      · exact h.trans (List.infix_cons (List.infix_refl cs))
    · intro h
      rcases List.infix_cons_iff.mp h with h | h
      · exact Or.inl h
      · exact Or.inr h

theorem rowMatches_iff (toLowerCase : JsString → JsString) (s : JsString)
    (r : PatientRow) :
    rowMatches toLowerCase s r = true ↔ MatchesSpec toLowerCase s r := by
  simp [rowMatches, MatchesSpec, includes_iff_substring]

theorem patientRows_nodup : patientRows.Nodup := by
  decide

theorem patientRows_ascii :
    ∀ r ∈ patientRows, IsAscii r.id ∧ IsAscii r.result := by
  decide

theorem filteredRows_of_lowersAscii {toLowerCase : JsString → JsString}
    (h : LowersAscii toLowerCase) {s : JsString} (hs : IsAscii s) :
    filteredRows toLowerCase s = filteredRows asciiLower s := by
  unfold filteredRows
  apply List.filter_congr
  intro r hr
  obtain ⟨hid, hres⟩ := patientRows_ascii r hr
  simp only [rowMatches, h _ hs, h _ hid, h _ hres]

/-! ## Lemmas on lines -/

theorem lines_ne_nil (s : JsString) : lines s ≠ [] := by
  cases s with
  | nil => simp [lines]
  | cons c cs =>
    simp only [lines]
    split
    · simp
    · split <;> simp

theorem lines_append_lineFeed (a b : JsString) :
    lines (a ++ '\n' :: b) = lines a ++ lines b := by
  induction a with
  | nil => simp [lines]
  | cons c cs ih =>
    by_cases hc : c = '\n'
    · simp [lines, hc, ih]
    · obtain ⟨l, ls, hl⟩ := List.exists_cons_of_ne_nil (lines_ne_nil cs)
      simp [lines, hc, ih, hl]

theorem lines_of_noLineFeed {a : JsString} (h : NoLineFeed a) : lines a = [a] := by
  induction a with
  | nil => simp [lines]
  | cons c cs ih =>
    have hc : c ≠ '\n' := fun e => h (by simp [e])
    have hcs : NoLineFeed cs := fun m => h (List.mem_cons_of_mem _ m)
    simp [lines, hc, ih hcs]

/-! ## Lemmas on the rendering of numbers -/

theorem digitChar_ne_lineFeed {d : Nat} (h : d < 10) : digitChar d ≠ '\n' := by
  interval_cases d <;> decide

theorem natToDecimal_noLineFeed (n : Nat) : NoLineFeed (natToDecimal n) := by
  unfold NoLineFeed natToDecimal
  split
  · decide
  · intro h
    obtain ⟨d, hd, he⟩ := List.mem_map.mp h
    exact digitChar_ne_lineFeed (Nat.digits_lt_base (by norm_num) (List.mem_reverse.mp hd)) he

theorem natToDecimal_split (n : Nat) (h : 10 ≤ n) :
    natToDecimal n = natToDecimal (n / 10) ++ [digitChar (n % 10)] := by
  have h0 : n ≠ 0 := by omega
  have h1 : n / 10 ≠ 0 := by omega
  simp [natToDecimal, h0, h1]
  rw [Nat.digits_def' (by norm_num) (by omega)]
  simp

theorem natToDecimal_of_lt_ten {n : Nat} (h : n < 10) : natToDecimal n = [digitChar n] := by
  interval_cases n <;> simp [natToDecimal, digitChar]

theorem roundHalfUp_spec {x : ℚ} (hx : 0 ≤ x) :
    (roundHalfUp x : ℚ) ≤ x + 1 / 2 ∧ x + 1 / 2 < roundHalfUp x + 1 := by
  have h0 : (0 : ℤ) ≤ ⌊x + 1 / 2⌋ := Int.floor_nonneg.mpr (by linarith)
  have hc : ((roundHalfUp x : ℕ) : ℚ) = ((⌊x + 1 / 2⌋ : ℤ) : ℚ) := by
    unfold roundHalfUp
    rw [← Int.cast_natCast, Int.toNat_of_nonneg h0]
  rw [hc]
  exact ⟨Int.floor_le _, Int.lt_floor_add_one _⟩

theorem roundHalfUp_eq {x : ℚ} {n : Nat} (h1 : (n : ℚ) ≤ x + 1 / 2) (h2 : x + 1 / 2 < n + 1) :
    roundHalfUp x = n := by
  unfold roundHalfUp
  have : ⌊x + 1 / 2⌋ = (n : ℤ) := by
    rw [Int.floor_eq_iff]
    exact ⟨by exact_mod_cast h1, by exact_mod_cast h2⟩
  rw [this, Int.toNat_natCast]

theorem toFixed_zero {x : ℚ} (hx : 0 ≤ x) : toFixed x 0 = natToDecimal (roundHalfUp x) := by
  simp [toFixed, not_lt.mpr hx, abs_of_nonneg hx]

theorem toFixed_one {x : ℚ} (hx : 0 ≤ x) :
    toFixed x 1 = natToDecimal (roundHalfUp (x * 10) / 10) ++
      ['.', digitChar (roundHalfUp (x * 10) % 10)] := by
  simp only [toFixed, not_lt.mpr hx, abs_of_nonneg hx, if_false, pow_one, one_ne_zero,
    List.nil_append]
  generalize roundHalfUp (x * 10) = n
  by_cases h : n < 10
  · have hd : n / 10 = 0 := by omega
    have hm : n % 10 = n := by omega
    rw [natToDecimal_of_lt_ten h, hd, hm]
    simp [natToDecimal]
  · have hn : 10 ≤ n := by omega
    rw [natToDecimal_split n hn]
    have hlen : 0 < (natToDecimal (n / 10)).length := by
      have h1 : n / 10 ≠ 0 := by omega
      have hp : Nat.digits 10 (n / 10) ≠ [] := Nat.digits_ne_nil_iff_ne_zero.mpr h1
      simpa [natToDecimal, h1, List.length_pos] using hp
    have : ¬ ((natToDecimal (n / 10)).length + 1 ≤ 1) := by omega
    simp [this]

theorem roundHalfEven_near (q : ℚ) : |((roundHalfEven q : ℤ) : ℚ) - q| ≤ 1 / 2 := by
  have h1 := Int.floor_le q
  have h2 := Int.lt_floor_add_one q
  unfold roundHalfEven
  simp only
  rw [abs_le]
  split_ifs with ha hb hc
  · constructor <;> linarith
  · push_cast
    constructor <;> linarith
  · have : q - ⌊q⌋ = 1 / 2 := le_antisymm (not_lt.mp hb) (not_lt.mp ha)
    constructor <;> linarith
  · have : q - ⌊q⌋ = 1 / 2 := le_antisymm (not_lt.mp hb) (not_lt.mp ha)
    push_cast
    constructor <;> linarith

theorem roundHalfEven_eq {q : ℚ} {k : ℤ} (h1 : (k : ℚ) - 1 / 2 < q) (h2 : q < k + 1 / 2) :
    roundHalfEven q = k := by
  have hf1 := Int.floor_le q
  have hf2 := Int.lt_floor_add_one q
  have hle : ⌊q⌋ ≤ k := by
    have : ((⌊q⌋ : ℤ) : ℚ) < ((k + 1 : ℤ) : ℚ) := by push_cast; linarith
    have := Int.cast_lt.mp this
    omega
  have hge : k - 1 ≤ ⌊q⌋ := by
    have : (((k - 2 : ℤ)) : ℚ) < ((⌊q⌋ : ℤ) : ℚ) := by push_cast; linarith
    have := Int.cast_lt.mp this
    omega
  unfold roundHalfEven
  simp only
  rcases (by omega : ⌊q⌋ = k ∨ ⌊q⌋ = k - 1) with h | h
  · have hr : q - ⌊q⌋ < 1 / 2 := by rw [h]; linarith
    rw [if_pos hr, h]
  · have hr : 1 / 2 < q - ⌊q⌋ := by rw [h]; push_cast; linarith
    have hr' : ¬ q - ⌊q⌋ < 1 / 2 := not_lt.mpr hr.le
    rw [if_neg hr', if_pos hr, h]
    ring

theorem roundHalfEven_intCast (k : ℤ) : roundHalfEven (k : ℚ) = k :=
  roundHalfEven_eq (by linarith) (by linarith)

theorem roundHalfEven_nonneg {q : ℚ} (h : 0 ≤ q) : 0 ≤ roundHalfEven q := by
  have hf : 0 ≤ ⌊q⌋ := Int.floor_nonneg.mpr h
  unfold roundHalfEven
  simp only
  split_ifs <;> omega

theorem log_two_of_mem {x : ℚ} (h1 : 64 ≤ x) (h2 : x < 128) : Int.log 2 x = 6 := by
  have hx : 0 < x := by linarith
  have ha : (6 : ℤ) ≤ Int.log 2 x := by
    rw [← Int.zpow_le_iff_le_log (by norm_num) hx]
    norm_num
    linarith
  have hb : Int.log 2 x < 7 := by
    rw [← Int.lt_zpow_iff_log_lt (by norm_num) hx]
    norm_num
    linarith
  omega

theorem roundToDouble_of_mem {x : ℚ} (h1 : 64 ≤ x) (h2 : x < 128) :
    roundToDouble x = (roundHalfEven (x * 2 ^ 46) : ℚ) / 2 ^ 46 := by
  have hx : 0 < x := by linarith
  have hlog : Int.log 2 x = 6 := log_two_of_mem h1 h2
  have hulp : (2 : ℚ) ^ ((6 : ℤ) - 52) = 1 / 2 ^ 46 := by
    rw [show (6 : ℤ) - 52 = -46 by norm_num, zpow_neg]
    norm_num
  simp only [roundToDouble, if_neg hx.ne', if_neg (not_lt.mpr hx.le), abs_of_pos hx, hlog, hulp]
  rw [div_div_eq_mul_div, div_one]
  ring

theorem roundToDouble_near {x : ℚ} (h1 : 64 ≤ x) (h2 : x < 128) :
    |roundToDouble x - x| ≤ 1 / 2 ^ 47 := by
  rw [roundToDouble_of_mem h1 h2]
  have h := roundHalfEven_near (x * 2 ^ 46)
  rw [abs_le] at h ⊢
  have hp : (0 : ℚ) < 2 ^ 46 := by positivity
  constructor
  · rw [le_sub_iff_add_le, le_div_iff₀ hp]
    have : (-(1 / 2 ^ 47) + x) * 2 ^ 46 = x * 2 ^ 46 - 1 / 2 := by ring
    rw [this]; linarith
  · rw [sub_le_iff_le_add, div_le_iff₀ hp]
    have : (1 / 2 ^ 47 + x) * 2 ^ 46 = x * 2 ^ 46 + 1 / 2 := by ring
    rw [this]; linarith

theorem roundToDouble_nonneg {x : ℚ} (h1 : 64 ≤ x) (h2 : x < 128) : 0 ≤ roundToDouble x := by
  rw [roundToDouble_of_mem h1 h2]
  have : 0 ≤ roundHalfEven (x * 2 ^ 46) := roundHalfEven_nonneg (by positivity)
  have : (0 : ℚ) ≤ (roundHalfEven (x * 2 ^ 46) : ℚ) := by exact_mod_cast this
  positivity

theorem roundToDouble_natCast {n : ℕ} (h1 : 64 ≤ n) (h2 : n < 128) :
    roundToDouble (n : ℚ) = n := by
  rw [roundToDouble_of_mem (by exact_mod_cast h1) (by exact_mod_cast h2)]
  have : (n : ℚ) * 2 ^ 46 = (((n * 2 ^ 46 : ℕ) : ℤ) : ℚ) := by push_cast; ring
  rw [this, roundHalfEven_intCast]
  push_cast
  exact mul_div_cancel_right₀ _ (by positivity)

theorem jsMul_hundred_near {c : ℚ} (h1 : 8 / 10 ≤ c) (h2 : c < 98 / 100) :
    0 ≤ jsMul c 100 ∧ |jsMul c 100 - c * 100| ≤ 1 / 2 ^ 47 :=
  ⟨roundToDouble_nonneg (by linarith) (by linarith),
    roundToDouble_near (by linarith) (by linarith)⟩

theorem jsMul_hundred_of_nat {c : ℚ} {n : ℕ} (h : c * 100 = (n : ℚ)) (h1 : 64 ≤ n)
    (h2 : n < 128) : jsMul c 100 = n := by
  unfold jsMul
  rw [h]
  exact roundToDouble_natCast h1 h2

theorem jsMul_tieConfidence : jsMul tieConfidence 100 = 359 / 4 := by
  unfold jsMul tieConfidence
  rw [roundToDouble_of_mem (by norm_num) (by norm_num),
    @roundHalfEven_eq _ 6315594789945344 (by norm_num) (by norm_num)]
  norm_num

/-! ## The invariants hold in the reachable states -/

theorem timerCallback_outcomeInv (s : State) (u v : ℚ) (h0 : 0 ≤ v) (h1 : v < 1) :
    OutcomeInv (timerCallback s u v) := by
  refine Or.inr ⟨8 / 10 + v * (18 / 100), ?_, rfl, by linarith, by linarith⟩
  by_cases hu : u > 5 / 10 <;> simp [timerCallback, hu]

theorem step_outcomeInv {s : State} (e : Event) (he : e.WellFormed)
    (h : OutcomeInv s) : OutcomeInv (step s e) := by
  cases e with
  | fileSelected file => cases file <;> exact h
  | drop file => cases file <;> exact h
  | dragOver => exact h
  | dragLeave => exact h
  | readerLoad i =>
    simp only [step]
    split
    · exact h
    · exact h
  | processClick =>
    simp only [step, processWithModel]
    split
    · exact h
    · split
      · exact h
      · exact h
  | timerFired u v =>
    simp only [step]
    split
    · exact h
    · exact timerCallback_outcomeInv _ u v he.2.2.1 he.2.2.2
  | downloadClick now =>
    simp only [step]
    split
    · exact h
    · exact h
  | filterChange text => exact h

theorem step_timerInv {s : State} (e : Event) (h : TimerInv s) :
    TimerInv (step s e) := by
  cases e with
  | fileSelected file => cases file <;> exact h
  | drop file => cases file <;> exact h
  | dragOver => exact h
  | dragLeave => exact h
  | readerLoad i =>
    simp only [step]
    split
    · exact h
    · exact h
  | processClick =>
    unfold TimerInv at h ⊢
    simp only [step, processWithModel, processDisabled]
    by_cases hp : s.processing = true
    · simp [hp, h]
    · by_cases hi : truthyString s.selectedImage = true
      · simp [hp, hi] at h ⊢
        exact h
      · simp [hp, hi] at h ⊢
        exact h
  | timerFired u v =>
    unfold TimerInv at h ⊢
    simp only [step]
    split
    · exact h
    · simp [timerCallback]
      by_cases hp : s.processing = true
      · simp [hp] at h
        omega
      · simp [hp] at h
        omega
  | downloadClick now =>
    simp only [step]
    split
    · exact h
    · exact h
  | filterChange text => exact h

theorem reachable_outcomeInv {s : State} (h : Reachable s) : OutcomeInv s := by
  induction h with
  | initial => exact Or.inl ⟨rfl, rfl⟩
  | step e _ he ih => exact step_outcomeInv e he ih

theorem reachable_timerInv {s : State} (h : Reachable s) : TimerInv s := by
  induction h with
  | initial => rfl
  | step e _ _ ih => exact step_timerInv e ih

theorem reachable_run {s : State} (h : Reachable s) (es : List Event)
    (hes : ∀ e ∈ es, e.WellFormed) : Reachable (run s es) := by
  induction es generalizing s with
  | nil => exact h
  | cons e es ih =>
    exact ih (Reachable.step e h (hes e (List.mem_cons_self _ _)))
      (fun e' he' => hes e' (List.mem_cons_of_mem _ he'))

theorem lowersAscii_asciiLower : LowersAscii asciiLower := fun _ _ => rfl

theorem includes_nil (s : JsString) : includes s [] = true :=
  (includes_iff_substring s []).mpr List.nil_infix

/-! ## The sample session -/

theorem demoEvents_wellFormed : ∀ e ∈ demoEvents, e.WellFormed := by
  intro e he
  simp only [demoEvents, List.mem_cons, List.mem_singleton, List.mem_nil_iff, or_false] at he
  rcases he with rfl | rfl | rfl | rfl
  · trivial
  · trivial
  · trivial
  · simp only [Event.WellFormed]
    norm_num

theorem demoState_reachable : Reachable demoState :=
  reachable_run Reachable.initial demoEvents demoEvents_wellFormed

theorem demoBusyState_reachable : Reachable demoBusyState :=
  reachable_run Reachable.initial (demoEvents.take 3)
    (fun e he => demoEvents_wellFormed e (List.mem_of_mem_take he))

theorem demoUploadedState_reachable : Reachable demoUploadedState :=
  reachable_run Reachable.initial (demoEvents.take 2)
    (fun e he => demoEvents_wellFormed e (List.mem_of_mem_take he))

theorem demoUploadedState_fields :
    demoUploadedState.selectedImage = some "data:image/png;base64,AA==".toList ∧
      demoUploadedState.result = none := by
  constructor <;> rfl

theorem demoState_outcome :
    demoState.result = some labelCancer ∧ demoState.confidence = some (89 / 100) := by
  constructor
  · simp [demoState, demoEvents, run, step, onFileSelected, readerOnload, processDisabled,
      processWithModel, truthyString, timerCallback, State.initial]
    norm_num
  · simp [demoState, demoEvents, run, step, onFileSelected, readerOnload, processDisabled,
      processWithModel, truthyString, timerCallback, State.initial]
    norm_num

/-! ## Lemmas on the report -/

theorem noLineFeed_append {a b : JsString} (ha : NoLineFeed a) (hb : NoLineFeed b) :
    NoLineFeed (a ++ b) := by
  unfold NoLineFeed at *
  simp [ha, hb]

theorem lines_reportText (s : State) (now : JsString) :
    lines (reportText s now) =
      "Lung Cancer AI Report".toList :: [] ::
        (lines ("Prediction: ".toList ++ reportPrediction s) ++
          (lines ("Confidence: ".toList ++ reportConfidence s) ++
            lines ("Date: ".toList ++ now))) := by
  have h : reportText s now =
      "Lung Cancer AI Report".toList ++ '\n' :: ([] ++ '\n' ::
        (("Prediction: ".toList ++ reportPrediction s) ++ '\n' ::
          (("Confidence: ".toList ++ reportConfidence s) ++ '\n' ::
            ("Date: ".toList ++ now)))) := by
    simp [reportText]
  rw [h, lines_append_lineFeed, lines_append_lineFeed, lines_append_lineFeed,
    lines_append_lineFeed, @lines_of_noLineFeed "Lung Cancer AI Report".toList (by decide)]
  rfl

theorem toFixed_one_noLineFeed {x : ℚ} (hx : 0 ≤ x) : NoLineFeed (toFixed x 1) := by
  rw [toFixed_one hx]
  apply noLineFeed_append (natToDecimal_noLineFeed _)
  intro h
  simp only [List.mem_cons, List.mem_singleton, List.mem_nil_iff, or_false] at h
  rcases h with h | h
  · exact absurd h (by decide)
  · exact digitChar_ne_lineFeed (Nat.mod_lt _ (by norm_num)) h.symm

theorem reportPrediction_noLineFeed {s : State} (h : OutcomeInv s) :
    NoLineFeed (reportPrediction s) := by
  rcases h with ⟨hr, _⟩ | ⟨c, hr, _, _, _⟩
  · simp only [reportPrediction, hr]
    decide
  · rcases hr with hr | hr <;> simp only [reportPrediction, hr] <;> decide

theorem reportConfidence_noLineFeed {s : State} (h : OutcomeInv s) :
    NoLineFeed (reportConfidence s) := by
  rcases h with ⟨_, hc⟩ | ⟨c, _, hc, h0, h1⟩
  · simp only [reportConfidence, hc]
    decide
  · have hne : c ≠ 0 := by
      intro h
      rw [h] at h0
      norm_num at h0
    simp only [reportConfidence, hc, hne, ne_eq, not_false_eq_true, if_true]
    exact noLineFeed_append (toFixed_one_noLineFeed (jsMul_hundred_near h0 h1).1) (by decide)

theorem lines_reportText_of_outcomeInv {s : State} (h : OutcomeInv s) (now : JsString)
    (hnow : NoLineFeed now) :
    lines (reportText s now) =
      [ "Lung Cancer AI Report".toList, [],
        "Prediction: ".toList ++ reportPrediction s,
        "Confidence: ".toList ++ reportConfidence s,
        "Date: ".toList ++ now ] := by
  rw [lines_reportText,
    lines_of_noLineFeed (noLineFeed_append (by decide) (reportPrediction_noLineFeed h)),
    lines_of_noLineFeed (noLineFeed_append (by decide) (reportConfidence_noLineFeed h)),
    lines_of_noLineFeed (noLineFeed_append (by decide) hnow)]
  rfl

theorem roundHalfUp_near {x : ℚ} (hx : 0 ≤ x) :
    |((roundHalfUp (x * 10) : ℕ) : ℚ) / 10 - x| ≤ 1 / 20 := by
  obtain ⟨h1, h2⟩ := @roundHalfUp_spec (x * 10) (by linarith)
  rw [abs_le]
  constructor <;> linarith

theorem demoState_reportConfidence : reportConfidence demoState = "89.0%".toList := by
  have hj : jsMul (89 / 100) 100 = ((89 : ℕ) : ℚ) :=
    jsMul_hundred_of_nat (by norm_num) (by norm_num) (by norm_num)
  have hx : (0 : ℚ) ≤ ((89 : ℕ) : ℚ) := by norm_num
  have hr : roundHalfUp (((89 : ℕ) : ℚ) * 10) = 890 :=
    roundHalfUp_eq (by norm_num) (by norm_num)
  have hne : (89 / 100 : ℚ) ≠ 0 := by norm_num
  simp only [reportConfidence, demoState_outcome.2, hne, ne_eq, not_false_eq_true, if_true,
    hj, toFixed_one hx, hr]
  simp [natToDecimal, digitChar]

/-! ## The claims -/

/-- C1: for every filter string `s`, `filteredRows` is the list `patientRows`
filtered by the rule "`lowercase(s)` is a substring of `lowercase(r.id)` or of
`lowercase(r.result)`": it keeps the original order, has no duplicate, every
kept record satisfies the rule and no dropped record does. This holds whatever
the host function `toLowerCase` is. -/
theorem filteredRows_spec (toLowerCase : JsString → JsString) (s : JsString) :
    filteredRows toLowerCase s
        = patientRows.filter (fun r => decide (MatchesSpec toLowerCase s r)) ∧
      List.Sublist (filteredRows toLowerCase s) patientRows ∧
      (filteredRows toLowerCase s).Nodup ∧
      (∀ r ∈ filteredRows toLowerCase s, MatchesSpec toLowerCase s r) ∧
      (∀ r ∈ patientRows, r ∉ filteredRows toLowerCase s →
        ¬ MatchesSpec toLowerCase s r) := by
  have hsub : List.Sublist (filteredRows toLowerCase s) patientRows :=
    List.filter_sublist _
  refine ⟨?_, hsub, hsub.nodup patientRows_nodup, ?_, ?_⟩
  · unfold filteredRows
    apply List.filter_congr
    intro r _
    by_cases hm : MatchesSpec toLowerCase s r
    · simp [hm, (rowMatches_iff toLowerCase s r).mpr hm]
    · have : rowMatches toLowerCase s r = false := by
        simpa using fun h => hm ((rowMatches_iff toLowerCase s r).mp h)
      simp [hm, this]
  · intro r hr
    exact (rowMatches_iff toLowerCase s r).mp (List.mem_filter.mp hr).2
  · intro r hr hnot hm
    exact hnot (List.mem_filter.mpr ⟨hr, (rowMatches_iff toLowerCase s r).mpr hm⟩)


/-- C2: with the empty filter string, `filteredRows` is the whole list
`patientRows`: the four records PT-1001, PT-1002, PT-1003, PT-1004 in that
order (the host lower-cases the empty string to the empty string). -/
theorem filteredRows_empty (toLowerCase : JsString → JsString)
    (h : toLowerCase [] = []) :
    filteredRows toLowerCase [] = patientRows ∧
      patientRows.map (fun r => r.id) =
        ["PT-1001".toList, "PT-1002".toList, "PT-1003".toList, "PT-1004".toList] := by
  refine ⟨?_, rfl⟩
  unfold filteredRows
  rw [List.filter_eq_self]
  intro r _
  simp [rowMatches, h, includes_nil]

theorem filteredRows_empty_witness :
    asciiLower [] = [] ∧ filteredRows asciiLower [] = patientRows ∧
      patientRows.map (fun r => r.id) =
        ["PT-1001".toList, "PT-1002".toList, "PT-1003".toList, "PT-1004".toList] :=
  ⟨rfl, filteredRows_empty asciiLower rfl⟩

/-- C3, as stated, fails: with ASCII lower-casing the filter string "Cancer"
keeps all four records, PT-1001 and PT-1003 included, since their result
"No Cancer" contains "cancer" once lower-cased; the result is not the list of
the two "Cancer Detected" records. -/
theorem filter_Cancer_keeps_all_counterexample :
    LowersAscii asciiLower ∧
      (filteredRows asciiLower "Cancer".toList).map (fun r => r.id) =
        ["PT-1001".toList, "PT-1002".toList, "PT-1003".toList, "PT-1004".toList] ∧
      (filteredRows asciiLower "Cancer".toList).map (fun r => r.id) ≠
        ["PT-1002".toList, "PT-1004".toList] :=
  ⟨lowersAscii_asciiLower, by rfl, by decide⟩

/-- C3, amended: with the filter string "Cancer", `filteredRows` is the whole
list `patientRows`, every result containing "cancer" once lower-cased; with the
filter string "Cancer Detected" it is PT-1002 followed by PT-1004, the records
whose result is "Cancer Detected", and no other. -/
theorem filteredRows_Cancer (toLowerCase : JsString → JsString)
    (h : LowersAscii toLowerCase) :
    filteredRows toLowerCase "Cancer".toList = patientRows ∧
      filteredRows toLowerCase "Cancer Detected".toList =
        patientRows.filter (fun r => decide (r.result = "Cancer Detected".toList)) ∧
      (filteredRows toLowerCase "Cancer Detected".toList).map (fun r => r.id) =
        ["PT-1002".toList, "PT-1004".toList] := by
  rw [filteredRows_of_lowersAscii h (by decide), filteredRows_of_lowersAscii h (by decide)]
  exact ⟨by rfl, by rfl, by rfl⟩

theorem filteredRows_Cancer_witness :
    LowersAscii asciiLower ∧
      filteredRows asciiLower "Cancer".toList = patientRows ∧
      filteredRows asciiLower "Cancer Detected".toList =
        patientRows.filter (fun r => decide (r.result = "Cancer Detected".toList)) ∧
      (filteredRows asciiLower "Cancer Detected".toList).map (fun r => r.id) =
        ["PT-1002".toList, "PT-1004".toList] :=
  ⟨lowersAscii_asciiLower, filteredRows_Cancer asciiLower lowersAscii_asciiLower⟩

/-- C4: with the filter string "PT-1001", `filteredRows` holds exactly one
record: its id is "PT-1001", its result "No Cancer", its confidence 0.94, and
the Confidence cell of its table row reads "94%". -/
theorem filteredRows_PT1001 (toLowerCase : JsString → JsString)
    (h : LowersAscii toLowerCase) :
    ∃ r : PatientRow, filteredRows toLowerCase "PT-1001".toList = [r] ∧
      r.id = "PT-1001".toList ∧ r.result = "No Cancer".toList ∧
      r.confidence = 94 / 100 ∧ historyConfidenceCell r = "94%".toList := by
  rw [filteredRows_of_lowersAscii h (by decide)]
  refine ⟨_, by rfl, rfl, rfl, rfl, ?_⟩
  have hj : jsMul (94 / 100) 100 = ((94 : ℕ) : ℚ) :=
    jsMul_hundred_of_nat (by norm_num) (by norm_num) (by norm_num)
  have hx : (0 : ℚ) ≤ ((94 : ℕ) : ℚ) := by norm_num
  have hr : roundHalfUp ((94 : ℕ) : ℚ) = 94 :=
    roundHalfUp_eq (by norm_num) (by norm_num)
  simp only [historyConfidenceCell, hj, toFixed_zero hx, hr]
  simp [natToDecimal, digitChar]

theorem filteredRows_PT1001_witness :
    LowersAscii asciiLower ∧
      ∃ r : PatientRow, filteredRows asciiLower "PT-1001".toList = [r] ∧
        r.id = "PT-1001".toList ∧ r.result = "No Cancer".toList ∧
        r.confidence = 94 / 100 ∧ historyConfidenceCell r = "94%".toList :=
  ⟨lowersAscii_asciiLower, filteredRows_PT1001 asciiLower lowersAscii_asciiLower⟩

/-- C5: for all draws `u` and `v` in `[0, 1)`, the timer callback publishes the
confidence `0.8 + 0.18 * v`, which lies in `[0.80, 0.98)`, and the label
"Cancer Detected" when `u > 0.5`, "No Cancer Detected" otherwise; the label is
one of these two strings. -/
theorem timerCallback_publishes (s : State) (u v : ℚ)
    (hu : 0 ≤ u ∧ u < 1) (hv : 0 ≤ v ∧ v < 1) :
    (timerCallback s u v).confidence = some (8 / 10 + 18 / 100 * v) ∧
      (8 / 10 : ℚ) ≤ 8 / 10 + 18 / 100 * v ∧ 8 / 10 + 18 / 100 * v < (98 / 100 : ℚ) ∧
      (u > 1 / 2 → (timerCallback s u v).result = some "Cancer Detected".toList) ∧
      (¬ u > 1 / 2 → (timerCallback s u v).result = some "No Cancer Detected".toList) ∧
      ((timerCallback s u v).result = some "Cancer Detected".toList ∨
        (timerCallback s u v).result = some "No Cancer Detected".toList) := by
  have _ := hu
  have h5 : (5 / 10 : ℚ) = 1 / 2 := by norm_num
  refine ⟨?_, by linarith [hv.1], by linarith [hv.2], ?_, ?_, ?_⟩
  · simp only [timerCallback]
    congr 1
    ring
  · intro h
    have hd : decide (u > 5 / 10) = true := decide_eq_true (h5 ▸ h)
    simp only [timerCallback, hd]
    rfl
  · intro h
    have hd : decide (u > 5 / 10) = false := decide_eq_false (h5 ▸ h)
    simp only [timerCallback, hd]
    rfl
  · by_cases h : u > 1 / 2
    · left
      have hd : decide (u > 5 / 10) = true := decide_eq_true (h5 ▸ h)
      simp only [timerCallback, hd]
      rfl
    · right
      have hd : decide (u > 5 / 10) = false := decide_eq_false (h5 ▸ h)
      simp only [timerCallback, hd]
      rfl

theorem timerCallback_publishes_witness :
    (timerCallback State.initial (3 / 4) (1 / 2)).confidence
        = some (8 / 10 + 18 / 100 * (1 / 2)) ∧
      (timerCallback State.initial (3 / 4) (1 / 2)).result
        = some "Cancer Detected".toList :=
  have h := timerCallback_publishes State.initial (3 / 4) (1 / 2)
    ⟨by norm_num, by norm_num⟩ ⟨by norm_num, by norm_num⟩
  ⟨h.1, h.2.2.2.1 (by norm_num)⟩

/-- C6: in every state reachable from the initial state by the events of the
component, `result` is `null` exactly when `confidence` is `null`: the timer
callback is the only writer of either and sets both in the same transition. -/
theorem outcome_set_together (s : State) (hs : Reachable s) :
    (s.result = none ↔ s.confidence = none) ∧
      ∀ (e : Event), e.WellFormed →
        ((step s e).result = none ↔ (step s e).confidence = none) := by
  have key : ∀ t : State, OutcomeInv t → (t.result = none ↔ t.confidence = none) := by
    intro t ht
    rcases ht with ⟨hr, hc⟩ | ⟨c, hr, hc, _, _⟩
    · simp [hr, hc]
    · rcases hr with hr | hr <;> simp [hr, hc]
  exact ⟨key s (reachable_outcomeInv hs),
    fun e he => key _ (step_outcomeInv e he (reachable_outcomeInv hs))⟩

theorem outcome_set_together_witness :
    Reachable demoState ∧ (demoState.result = none ↔ demoState.confidence = none) ∧
      Reachable demoBusyState ∧
      (demoBusyState.result = none ↔ demoBusyState.confidence = none) :=
  ⟨demoState_reachable, (outcome_set_together demoState demoState_reachable).1,
    demoBusyState_reachable, (outcome_set_together demoBusyState demoBusyState_reachable).1⟩

/-- C7: a click on the Process button is dispatched only when an image is
present and no classification is in flight. In every reachable state at most
one timer callback is pending, and it is pending exactly while `processing` is
set; a click while the button is disabled changes nothing. A click while it is
enabled sets `processing` and schedules the one timer; a second click right
after it changes nothing; and of two timer events that follow only the first
runs the callback: the clicks and timer events together update the outcome
exactly once, to the outcome of the first timer event. -/
theorem classification_single_flight (s : State) (hs : Reachable s) :
    s.pendingTimers ≤ 1 ∧ (s.pendingTimers = 1 ↔ s.processing = true) ∧
      (s.selectedImage = none ∨ s.processing = true → step s .processClick = s) ∧
      step (step s .processClick) .processClick = step s .processClick ∧
      (step (step s .processClick) .processClick).pendingTimers ≤ 1 ∧
      (∀ u v u' v' : ℚ,
        step (step (step (step s .processClick) .processClick) (.timerFired u v))
            (.timerFired u' v')
          = step (step s .processClick) (.timerFired u v)) ∧
      (processDisabled s = false →
        step s .processClick = { s with processing := true, pendingTimers := 1 } ∧
        ∀ u v u' v' : ℚ,
          run s [.processClick, .processClick, .timerFired u v, .timerFired u' v']
            = timerCallback s u v ∧
          outcomeUpdates s
            [.processClick, .processClick, .timerFired u v, .timerFired u' v'] = 1) := by
  have hinv := reachable_timerInv hs
  have hclick : TimerInv (step s .processClick) := step_timerInv _ hinv
  have hbound : ∀ t : State, TimerInv t → t.pendingTimers ≤ 1 := by
    intro t ht
    unfold TimerInv at ht
    by_cases hp : t.processing = true
    · simp [hp] at ht
      omega
    · simp [hp] at ht
      omega
  have hrej : ∀ t : State, t.selectedImage = none ∨ t.processing = true →
      step t .processClick = t := by
    intro t ht
    have hd : processDisabled t = true := by
      rcases ht with h | h
      · simp [processDisabled, truthyString, h]
      · simp [processDisabled, h]
    simp [step, hd]
  have hidem : step (step s .processClick) .processClick = step s .processClick := by
    by_cases hd : processDisabled s = true
    · have h1 : step s .processClick = s := by simp [step, hd]
      rw [h1, h1]
    · by_cases hi : truthyString s.selectedImage = true
      · apply hrej
        right
        simp [step, hd, processWithModel, hi]
      · simp [processDisabled, hi] at hd
  have hidle : ∀ (r : State) (a b : ℚ), r.pendingTimers = 0 →
      step r (.timerFired a b) = r := by
    intro r a b hr
    simp [step, hr]
  refine ⟨hbound s hinv, ?_, hrej s, hidem, ?_, ?_, ?_⟩
  · unfold TimerInv at hinv
    by_cases hp : s.processing = true
    · simp [hp] at hinv
      simp [hp, hinv]
    · simp [hp] at hinv
      simp [hp, hinv]
  · rw [hidem]
    exact hbound _ hclick
  · intro u v u' v'
    rw [hidem]
    generalize step s .processClick = t at hclick
    have hb := hbound t hclick
    by_cases h0 : t.pendingTimers = 0
    · rw [hidle t u v h0]
      exact hidle t u' v' h0
    · apply hidle
      simp [step, h0, timerCallback]
      omega
  · intro hd
    have hi : truthyString s.selectedImage = true := by
      by_cases hi : truthyString s.selectedImage = true
      · exact hi
      · simp [processDisabled, hi] at hd
    have hp : s.processing = false := by
      by_cases hp : s.processing = true
      · simp [processDisabled, hp] at hd
      · simpa using hp
    have ht0 : s.pendingTimers = 0 := by
      unfold TimerInv at hinv
      simpa [hp] using hinv
    have h1 : step s .processClick = { s with processing := true, pendingTimers := 1 } := by
      simp [step, hd, processWithModel, hi, ht0]
    have h2 : ∀ a b : ℚ,
        step { s with processing := true, pendingTimers := 1 } (.timerFired a b)
          = timerCallback s a b := by
      intro a b
      cases s
      simp_all [step, timerCallback]
    refine ⟨h1, fun u v u' v' => ?_⟩
    have hdone : (timerCallback s u v).pendingTimers = 0 := by
      simpa [timerCallback] using ht0
    constructor
    · simp only [run, List.foldl_cons, List.foldl_nil]
      rw [hidem, h1, h2, hidle _ u' v' hdone]
    · simp only [outcomeUpdates]
      rw [hidem, h1, h2]
      simp [ht0, hdone]

theorem classification_single_flight_witness :
    Reachable demoBusyState ∧
      step demoBusyState .processClick = demoBusyState ∧
      (step (step demoBusyState .processClick) .processClick).pendingTimers ≤ 1 ∧
      Reachable demoUploadedState ∧ processDisabled demoUploadedState = false ∧
      step demoUploadedState .processClick
        = { demoUploadedState with processing := true, pendingTimers := 1 } ∧
      run demoUploadedState
          [.processClick, .processClick, .timerFired (3 / 4) (1 / 2),
            .timerFired (1 / 4) (1 / 4)]
        = timerCallback demoUploadedState (3 / 4) (1 / 2) ∧
      outcomeUpdates demoUploadedState
          [.processClick, .processClick, .timerFired (3 / 4) (1 / 2),
            .timerFired (1 / 4) (1 / 4)] = 1 :=
  have h := classification_single_flight demoBusyState demoBusyState_reachable
  have hd : processDisabled demoUploadedState = false := by rfl
  have h' := (classification_single_flight demoUploadedState
    demoUploadedState_reachable).2.2.2.2.2.2 hd
  ⟨demoBusyState_reachable, h.2.2.1 (Or.inr (by rfl)), h.2.2.2.2.1,
    demoUploadedState_reachable, hd, h'.1,
    (h'.2 (3 / 4) (1 / 2) (1 / 4) (1 / 4)).1, (h'.2 (3 / 4) (1 / 2) (1 / 4) (1 / 4)).2⟩

/-- C8: in a state without an image payload (`selectedImage` is `null`),
`processWithModel` returns the state it was given: `processing` is not set, no
timer is scheduled and no other field changes; the same holds of a click on the
Process button. -/
theorem processWithModel_no_image (s : State) (h : s.selectedImage = none) :
    processWithModel s = s ∧ step s .processClick = s := by
  have ht : truthyString s.selectedImage = false := by simp [truthyString, h]
  constructor
  · simp [processWithModel, ht]
  · simp [step, processDisabled, ht]

theorem processWithModel_no_image_witness :
    State.initial.selectedImage = none ∧
      processWithModel State.initial = State.initial ∧
      step State.initial .processClick = State.initial :=
  ⟨rfl, processWithModel_no_image State.initial rfl⟩

theorem tieDraw_wellFormed : 0 ≤ tieDraw ∧ tieDraw < 1 := by
  unfold tieDraw tieConfidence
  constructor <;> norm_num

theorem tieState_reachable : Reachable tieState := by
  apply reachable_run Reachable.initial
  intro e he
  rcases List.mem_append.mp he with h | h
  · exact demoEvents_wellFormed e (List.mem_of_mem_take h)
  · rw [List.mem_singleton.mp h]
    exact ⟨by norm_num, by norm_num, tieDraw_wellFormed.1, tieDraw_wellFormed.2⟩

theorem tieState_outcome :
    tieState.result = some labelCancer ∧ tieState.confidence = some tieConfidence := by
  constructor
  · simp [tieState, tieEvents, demoEvents, run, step, onFileSelected, readerOnload,
      processDisabled, processWithModel, truthyString, timerCallback, State.initial]
    norm_num
  · simp [tieState, tieEvents, demoEvents, run, step, onFileSelected, readerOnload,
      processDisabled, processWithModel, truthyString, timerCallback, State.initial]
    unfold tieDraw
    norm_num

theorem tieState_reportConfidence : reportConfidence tieState = "89.8%".toList := by
  have hx : (0 : ℚ) ≤ 359 / 4 := by norm_num
  have hr : roundHalfUp (359 / 4 * 10) = 898 :=
    roundHalfUp_eq (by norm_num) (by norm_num)
  have hne : tieConfidence ≠ 0 := by
    unfold tieConfidence
    norm_num
  simp only [reportConfidence, tieState_outcome.2, hne, ne_eq, not_false_eq_true, if_true,
    jsMul_tieConfidence, toFixed_one hx, hr]
  simp [natToDecimal, digitChar]

theorem tieState_lines :
    lines (downloadReport tieState demoNow).text =
      [ "Lung Cancer AI Report".toList, [],
        "Prediction: Cancer Detected".toList,
        "Confidence: 89.8%".toList,
        "Date: 8/26/2025, 10:43:31 PM".toList ] := by
  simp only [downloadReport]
  rw [lines_reportText_of_outcomeInv (reachable_outcomeInv tieState_reachable)
    demoNow (by decide), tieState_reportConfidence]
  simp only [reportPrediction, tieState_outcome.1]
  rfl

/-- C9, as stated, fails: for the published confidence
`c = 1010495166391255 / 2^50`, a binary64 number, the exact `c * 100` lies just
below 89.75 and has 89.7 as its one-decimal rendering, but the report reads
"Confidence: 89.8%": the product is rounded to the binary64 number 89.75 before
it is formatted. No decimal `n / 10` within 1/20 of `c * 100` is the one the
report shows. -/
theorem report_tie_counterexample :
    Reachable tieState ∧ tieState.confidence = some tieConfidence ∧
      lines (downloadReport tieState demoNow).text =
        [ "Lung Cancer AI Report".toList, [],
          "Prediction: Cancer Detected".toList,
          "Confidence: 89.8%".toList,
          "Date: 8/26/2025, 10:43:31 PM".toList ] ∧
      ¬ ∃ n : ℕ, |(n : ℚ) / 10 - tieConfidence * 100| ≤ 1 / 20 ∧
          "Confidence: ".toList ++ (natToDecimal (n / 10) ++
              ['.', digitChar (n % 10)] ++ "%".toList)
            ∈ lines (downloadReport tieState demoNow).text := by
  refine ⟨tieState_reachable, tieState_outcome.2, tieState_lines, ?_⟩
  rintro ⟨n, hb, hm⟩
  have hn : n = 897 := by
    unfold tieConfidence at hb
    rw [abs_le] at hb
    have h1 : ((896 : ℕ) : ℚ) < (n : ℚ) := by
      have := hb.1
      push_cast
      linarith
    have h2 : (n : ℚ) < ((898 : ℕ) : ℚ) := by
      have := hb.2
      push_cast
      linarith
    have h1' := Nat.cast_lt.mp h1
    have h2' := Nat.cast_lt.mp h2
    omega
  subst hn
  rw [tieState_lines] at hm
  have hd : natToDecimal (897 / 10) = "89".toList := by
    simp [natToDecimal, digitChar]
  rw [hd] at hm
  revert hm
  simp [digitChar]

/-- C9, amended: in a reachable state with the published outcome `(label, c)`,
the text built by `downloadReport` contains the line "Prediction: " followed
by `label` and the line "Confidence: " followed by the binary64 product
`c * 100` with one decimal place (the decimal `n / 10` nearest to that product,
written as the digits of its integer part, a point and one digit) and "%"; the
product differs from the exact `c * 100` by at most `2^-47`. When the label is
absent the text contains the line "Prediction: N/A", and when the confidence
is absent it contains the line "Confidence: N/A". -/
theorem report_lines (s : State) (now : JsString) :
    (Reachable s → ∀ (label : JsString) (c : ℚ),
      s.result = some label → s.confidence = some c →
        "Prediction: ".toList ++ label ∈ lines (downloadReport s now).text ∧
        |jsMul c 100 - c * 100| ≤ 1 / 2 ^ 47 ∧
        ∃ n : ℕ, |(n : ℚ) / 10 - jsMul c 100| ≤ 1 / 20 ∧
          "Confidence: ".toList ++ (natToDecimal (n / 10) ++
              ['.', digitChar (n % 10)] ++ "%".toList)
            ∈ lines (downloadReport s now).text) ∧
      (s.result = none → "Prediction: N/A".toList ∈ lines (downloadReport s now).text) ∧
      (s.confidence = none →
        "Confidence: N/A".toList ∈ lines (downloadReport s now).text) := by
  simp only [downloadReport, lines_reportText]
  refine ⟨?_, ?_, ?_⟩
  · intro hs label c hr hc
    have hinv := reachable_outcomeInv hs
    have hp := reportPrediction_noLineFeed hinv
    have hq := reportConfidence_noLineFeed hinv
    rw [lines_of_noLineFeed (noLineFeed_append (by decide) hp),
      lines_of_noLineFeed (noLineFeed_append (by decide) hq)]
    have hrange : 8 / 10 ≤ c ∧ c < 98 / 100 := by
      rcases hinv with ⟨_, hn⟩ | ⟨c', _, hc', h0, h1⟩
      · rw [hn] at hc
        cases hc
      · rw [hc'] at hc
        cases hc
        exact ⟨h0, h1⟩
    have hc0 : c ≠ 0 := by
      intro h
      rw [h] at hrange
      norm_num at hrange
    obtain ⟨hx, hnear⟩ := jsMul_hundred_near hrange.1 hrange.2
    refine ⟨?_, hnear, roundHalfUp (jsMul c 100 * 10), roundHalfUp_near hx, ?_⟩
    · simp [reportPrediction, hr]
    · simp [reportConfidence, hc, hc0, toFixed_one hx]
  · intro hr
    have : lines ("Prediction: ".toList ++ reportPrediction s) = ["Prediction: N/A".toList] := by
      simp only [reportPrediction, hr]
      decide
    refine List.mem_cons_of_mem _ (List.mem_cons_of_mem _ (List.mem_append_left _ ?_))
    rw [this]
    exact List.mem_singleton_self _
  · intro hc
    have : lines ("Confidence: ".toList ++ reportConfidence s) = ["Confidence: N/A".toList] := by
      simp only [reportConfidence, hc]
      decide
    refine List.mem_cons_of_mem _ (List.mem_cons_of_mem _
      (List.mem_append_right _ (List.mem_append_left _ ?_)))
    rw [this]
    exact List.mem_singleton_self _

theorem report_lines_witness :
    Reachable tieState ∧
      "Prediction: ".toList ++ labelCancer ∈ lines (downloadReport tieState demoNow).text ∧
      |jsMul tieConfidence 100 - tieConfidence * 100| ≤ 1 / 2 ^ 47 ∧
      (State.initial.result = none →
        "Prediction: N/A".toList ∈ lines (downloadReport State.initial demoNow).text) ∧
      (State.initial.confidence = none →
        "Confidence: N/A".toList ∈ lines (downloadReport State.initial demoNow).text) :=
  have h := (report_lines tieState demoNow).1 tieState_reachable labelCancer tieConfidence
    tieState_outcome.1 tieState_outcome.2
  ⟨tieState_reachable, h.1, h.2.1, (report_lines State.initial demoNow).2⟩

/-- C10, as stated, fails: the document exported at the end of the sample
session has five lines, not four: an empty line stands between the title and
the Prediction line. -/
theorem report_four_lines_counterexample :
    Reachable demoState ∧
      lines (downloadReport demoState demoNow).text =
        [ "Lung Cancer AI Report".toList, [],
          "Prediction: Cancer Detected".toList,
          "Confidence: 89.0%".toList,
          "Date: 8/26/2025, 10:43:31 PM".toList ] ∧
      (lines (downloadReport demoState demoNow).text).length ≠ 4 := by
  have h : lines (downloadReport demoState demoNow).text =
      [ "Lung Cancer AI Report".toList, [],
        "Prediction: Cancer Detected".toList,
        "Confidence: 89.0%".toList,
        "Date: 8/26/2025, 10:43:31 PM".toList ] := by
    simp only [downloadReport]
    rw [lines_reportText_of_outcomeInv (reachable_outcomeInv demoState_reachable)
      demoNow (by decide), demoState_reportConfidence]
    simp only [reportPrediction, demoState_outcome.1]
    rfl
  refine ⟨demoState_reachable, h, ?_⟩
  rw [h]
  decide

/-- C10, amended: for every reachable state and every export timestamp without
a line feed, the document built by `downloadReport` consists of exactly five
lines, in this order: the report title, an empty line, the line
"Prediction: " with the label or "N/A", the line "Confidence: " with the
percentage or "N/A", and the line "Date: " with the timestamp; and it is
downloaded under the filename "lung-cancer-ai-report.txt". -/
theorem report_layout (s : State) (hs : Reachable s) (now : JsString)
    (hnow : NoLineFeed now) :
    lines (downloadReport s now).text =
        [ "Lung Cancer AI Report".toList, [],
          "Prediction: ".toList ++ reportPrediction s,
          "Confidence: ".toList ++ reportConfidence s,
          "Date: ".toList ++ now ] ∧
      (downloadReport s now).filename = "lung-cancer-ai-report.txt".toList :=
  ⟨lines_reportText_of_outcomeInv (reachable_outcomeInv hs) now hnow, rfl⟩

theorem report_layout_witness :
    Reachable demoState ∧ NoLineFeed demoNow ∧
      lines (downloadReport demoState demoNow).text =
        [ "Lung Cancer AI Report".toList, [],
          "Prediction: ".toList ++ reportPrediction demoState,
          "Confidence: ".toList ++ reportConfidence demoState,
          "Date: ".toList ++ demoNow ] ∧
      (downloadReport demoState demoNow).filename = "lung-cancer-ai-report.txt".toList :=
  ⟨demoState_reachable, by decide,
    report_layout demoState demoState_reachable demoNow (by decide)⟩

/-! ## Lemmas on the export and on the intake -/

theorem step_downloadInv {s : State} (e : Event) (h : DownloadInv s) :
    DownloadInv (step s e) := by
  cases e with
  | fileSelected file => cases file <;> exact h
  | drop file => cases file <;> exact h
  | dragOver => exact h
  | dragLeave => exact h
  | readerLoad i =>
    simp only [step]
    split
    · exact h
    · exact h
  | processClick =>
    simp only [step, processWithModel]
    split
    · exact h
    · split
      · exact h
      · exact h
  | timerFired u v =>
    simp only [step]
    split
    · exact h
    · intro hr
      simp [timerCallback] at hr
  | downloadClick now =>
    simp only [step]
    split
    · exact h
    · rename_i hd
      intro hr
      have hr' : s.result = none := hr
      simp [downloadDisabled, truthyString, hr'] at hd
  | filterChange text => exact h

theorem reachable_downloadInv {s : State} (h : Reachable s) : DownloadInv s := by
  induction h with
  | initial => exact fun _ => rfl
  | step e _ _ ih => exact step_downloadInv e ih

/-! ## The claims, continued -/

/-- C11: in a state where `result` is `null` the Download Report button is
disabled, so a click on it is not dispatched: the state stays as it was and no
file is added to the downloads; and in the reachable states no file has been
downloaded as long as `result` is `null`. -/
theorem export_requires_outcome (s : State) (h : s.result = none) (now : JsString) :
    downloadDisabled s = true ∧
      step s (.downloadClick now) = s ∧
      (step s (.downloadClick now)).downloads = s.downloads ∧
      (Reachable s → s.downloads = [] ∧ (step s (.downloadClick now)).downloads = []) := by
  have hd : downloadDisabled s = true := by simp [downloadDisabled, truthyString, h]
  have hs : step s (.downloadClick now) = s := by simp [step, hd]
  refine ⟨hd, hs, by rw [hs], fun hr => ?_⟩
  rw [hs]
  exact ⟨reachable_downloadInv hr h, reachable_downloadInv hr h⟩

theorem export_requires_outcome_witness :
    demoUploadedState.selectedImage = some "data:image/png;base64,AA==".toList ∧
      demoUploadedState.result = none ∧
      step demoUploadedState (.downloadClick demoNow) = demoUploadedState ∧
      (step demoUploadedState (.downloadClick demoNow)).downloads = [] :=
  have h := export_requires_outcome demoUploadedState demoUploadedState_fields.2 demoNow
  ⟨demoUploadedState_fields.1, demoUploadedState_fields.2, h.2.1,
    (h.2.2.2 demoUploadedState_reachable).2⟩

/-! ## Lemmas on the rendering of the confidence -/

theorem natToDecimal_digits (n : Nat) :
    ∀ ch ∈ natToDecimal n, ∃ d, d < 10 ∧ ch = digitChar d := by
  intro ch hch
  unfold natToDecimal at hch
  split at hch
  · refine ⟨0, by norm_num, ?_⟩
    simp only [List.mem_singleton] at hch
    rw [hch]
    rfl
  · obtain ⟨d, hd, he⟩ := List.mem_map.mp hch
    exact ⟨d, Nat.digits_lt_base (by norm_num) (List.mem_reverse.mp hd), he.symm⟩

theorem digitChar_ne_point {d : Nat} (h : d < 10) : digitChar d ≠ '.' := by
  interval_cases d <;> decide

theorem natToDecimal_percent_noPoint (n : Nat) : '.' ∉ natToDecimal n ++ "%".toList := by
  intro h
  rcases List.mem_append.mp h with h | h
  · obtain ⟨d, hd, he⟩ := natToDecimal_digits n _ h
    exact digitChar_ne_point hd he.symm
  · exact absurd h (by decide)

theorem toFixed_one_percentOneDecimal {x : ℚ} (hx : 0 ≤ x) :
    PercentOneDecimal x (toFixed x 1 ++ "%".toList) :=
  ⟨roundHalfUp (x * 10), roundHalfUp_near hx, by rw [toFixed_one hx]; simp⟩

theorem toFixed_zero_percentNoDecimal {x : ℚ} (hx : 0 ≤ x) :
    PercentNoDecimal x (toFixed x 0 ++ "%".toList) := by
  obtain ⟨h1, h2⟩ := roundHalfUp_spec hx
  refine ⟨roundHalfUp x, ?_, by rw [toFixed_zero hx]⟩
  rw [abs_le]
  constructor <;> linarith

theorem patientRows_confidence_nonneg : ∀ r ∈ patientRows, (0 : ℚ) ≤ r.confidence := by
  intro r hr
  simp only [patientRows, List.mem_cons, List.mem_singleton, List.mem_nil_iff, or_false] at hr
  rcases hr with rfl | rfl | rfl | rfl <;> norm_num

theorem patientRows_products :
    ∀ r ∈ patientRows, ∃ n : ℕ, r.confidence * 100 = (n : ℚ) ∧ 64 ≤ n ∧ n < 128 := by
  intro r hr
  simp only [patientRows, List.mem_cons, List.mem_singleton, List.mem_nil_iff, or_false] at hr
  rcases hr with rfl | rfl | rfl | rfl
  · exact ⟨94, by norm_num, by norm_num, by norm_num⟩
  · exact ⟨91, by norm_num, by norm_num, by norm_num⟩
  · exact ⟨88, by norm_num, by norm_num, by norm_num⟩
  · exact ⟨82, by norm_num, by norm_num, by norm_num⟩

theorem historyConfidenceCell_of_nat (r : PatientRow) (n : ℕ)
    (h : r.confidence * 100 = (n : ℚ)) (h1 : 64 ≤ n) (h2 : n < 128) :
    historyConfidenceCell r = natToDecimal n ++ "%".toList := by
  have hj : jsMul r.confidence 100 = (n : ℚ) := jsMul_hundred_of_nat h h1 h2
  have hx : (0 : ℚ) ≤ (n : ℚ) := Nat.cast_nonneg n
  have hr : roundHalfUp (n : ℚ) = n := roundHalfUp_eq (by linarith) (by linarith)
  simp only [historyConfidenceCell, hj, toFixed_zero hx, hr]

theorem patientRows_cells :
    patientRows.map historyConfidenceCell =
      ["94%".toList, "91%".toList, "88%".toList, "82%".toList] := by
  simp only [patientRows, List.map_cons, List.map_nil]
  rw [historyConfidenceCell_of_nat _ 94 (by norm_num) (by norm_num) (by norm_num),
    historyConfidenceCell_of_nat _ 91 (by norm_num) (by norm_num) (by norm_num),
    historyConfidenceCell_of_nat _ 88 (by norm_num) (by norm_num) (by norm_num),
    historyConfidenceCell_of_nat _ 82 (by norm_num) (by norm_num) (by norm_num)]
  simp [natToDecimal, digitChar]

theorem reachable_confidence {s : State} (hs : Reachable s) {c : ℚ}
    (hc : s.confidence = some c) :
    truthyString s.result = true ∧ 8 / 10 ≤ c ∧ c < 98 / 100 := by
  rcases reachable_outcomeInv hs with ⟨_, hn⟩ | ⟨c', hr, hc', h0, h1⟩
  · rw [hn] at hc
    cases hc
  · rw [hc'] at hc
    cases hc
    refine ⟨?_, h0, h1⟩
    rcases hr with hr | hr <;> rw [hr] <;> rfl

/-- C12, as stated, fails: the Confidence column of the history table shows
"94%", "91%", "88%" and "82%", percentages without a decimal place. -/
theorem history_cell_counterexample :
    patientRows.map historyConfidenceCell =
        ["94%".toList, "91%".toList, "88%".toList, "82%".toList] ∧
      ¬ ∀ r ∈ patientRows,
        PercentOneDecimal (r.confidence * 100) (historyConfidenceCell r) := by
  refine ⟨patientRows_cells, fun h => ?_⟩
  have h0 : ∀ cell ∈ patientRows.map historyConfidenceCell, '.' ∉ cell := by
    rw [patientRows_cells]
    decide
  obtain ⟨r, hr⟩ : ∃ r, r ∈ patientRows := ⟨_, List.mem_cons_self _ _⟩
  obtain ⟨n, _, hn⟩ := h r hr
  apply h0 _ (List.mem_map.mpr ⟨r, hr, rfl⟩)
  rw [hn]
  simp

/-- C12, amended: for the confidence `c` of a reachable state, the result
badge, the Confidence Score panel and the exported report show the same text:
the binary64 product `c * 100`, which is within `2^-47` of the exact one, as a
percentage with exactly one decimal place; the Confidence column of the history
table shows the confidence of a record as a percentage without decimal place
(`toFixed(0)`), a text that contains no point. -/
theorem confidence_rendering (s : State) (hs : Reachable s) (c : ℚ)
    (hc : s.confidence = some c) :
    (∃ str, PercentOneDecimal (jsMul c 100) str ∧
        |jsMul c 100 - c * 100| ≤ 1 / 2 ^ 47 ∧
        resultBadgeConfidence s = some str ∧ confidencePanel s = str ∧
        reportConfidence s = str) ∧
      ∀ r ∈ patientRows,
        jsMul r.confidence 100 = r.confidence * 100 ∧
          PercentNoDecimal (r.confidence * 100) (historyConfidenceCell r) ∧
          '.' ∉ historyConfidenceCell r := by
  obtain ⟨ht, h0, h1⟩ := reachable_confidence hs hc
  have hne : c ≠ 0 := by
    intro h
    rw [h] at h0
    norm_num at h0
  obtain ⟨hx, hnear⟩ := jsMul_hundred_near h0 h1
  constructor
  · refine ⟨toFixed (jsMul c 100) 1 ++ "%".toList,
      toFixed_one_percentOneDecimal hx, hnear, ?_, ?_, ?_⟩
    · simp [resultBadgeConfidence, hc, ht, truthyNumber, hne]
    · simp [confidencePanel, hc, hne]
    · simp [reportConfidence, hc, hne]
  · intro r hr
    obtain ⟨n, hn, hn1, hn2⟩ := patientRows_products r hr
    rw [historyConfidenceCell_of_nat r n hn hn1 hn2]
    refine ⟨?_, ⟨n, ?_, rfl⟩, natToDecimal_percent_noPoint n⟩
    · rw [hn]
      exact jsMul_hundred_of_nat hn hn1 hn2
    · rw [hn]
      simp

theorem confidence_rendering_witness :
    Reachable tieState ∧ tieState.confidence = some tieConfidence ∧
      (∃ str, PercentOneDecimal (jsMul tieConfidence 100) str ∧
        |jsMul tieConfidence 100 - tieConfidence * 100| ≤ 1 / 2 ^ 47 ∧
        resultBadgeConfidence tieState = some str ∧ confidencePanel tieState = str ∧
        reportConfidence tieState = str) ∧
      ∀ r ∈ patientRows,
        jsMul r.confidence 100 = r.confidence * 100 ∧
          PercentNoDecimal (r.confidence * 100) (historyConfidenceCell r) ∧
          '.' ∉ historyConfidenceCell r :=
  ⟨tieState_reachable, tieState_outcome.2,
    confidence_rendering tieState tieState_reachable tieConfidence tieState_outcome.2⟩

/-- C13, as stated, fails: with the light theme applied and "light" stored, a
toggle whose `localStorage.setItem` throws applies the dark theme and leaves
"light" stored, so the stored value does not name the theme now applied. -/
theorem theme_write_failure_counterexample :
    (toggleTheme { dark := false, stored := some "light".toList } false).dark = true ∧
      (toggleTheme { dark := false, stored := some "light".toList } false).stored
        = some "light".toList ∧
      (toggleTheme { dark := false, stored := some "light".toList } false).stored
        ≠ some (themeName
            (toggleTheme { dark := false, stored := some "light".toList } false).dark) := by
  decide

/-- C13, amended: for every current theme the toggle handler flips the applied
theme, whether or not the write succeeds, so two toggles restore the applied
theme; when `localStorage.setItem` returns, the value stored under 'theme' is
the opposite of the theme in effect before the toggle ("dark" if it was light,
"light" if it was dark), which names the theme now applied; when it throws, the
stored value stays as it was; and reloading re-applies the last written value
as the initial theme: the theme applied by the toggle when its write succeeded,
the one the older value names when it failed. -/
theorem theme_toggle (t : ThemeState) :
    (∀ w : Bool, (toggleTheme t w).dark = !t.dark) ∧
      (toggleTheme t true).stored
        = some (if t.dark then "light".toList else "dark".toList) ∧
      (toggleTheme t true).stored = some (themeName (toggleTheme t true).dark) ∧
      (toggleTheme t false).stored = t.stored ∧
      (∀ w w' : Bool, (toggleTheme (toggleTheme t w) w').dark = t.dark) ∧
      (toggleTheme (toggleTheme t true) true).stored = some (themeName t.dark) ∧
      loadTheme (toggleTheme t true).stored = some (toggleTheme t true).dark ∧
      loadTheme (toggleTheme (toggleTheme t true) true).stored = some t.dark ∧
      loadTheme (toggleTheme t false).stored = loadTheme t.stored := by
  have hname : (toggleTheme t true).stored = some (themeName (toggleTheme t true).dark) := by
    cases hd : t.dark <;> simp [toggleTheme, themeName, hd]
  have hload : ∀ d : Bool, loadTheme (some (themeName d)) = some d := by decide
  have htwice : (toggleTheme (toggleTheme t true) true).stored = some (themeName t.dark) := by
    cases hd : t.dark <;> simp [toggleTheme, themeName, hd]
  refine ⟨fun w => rfl, rfl, hname, rfl, ?_, htwice, ?_, ?_, rfl⟩
  · intro w w'
    simp [toggleTheme]
  · rw [hname]
    exact hload _
  · rw [htwice]
    exact hload _

/-- C14: `onFileSelected` with an absent file returns the state it was given,
and `onDrop` with an absent file only clears `dragOver`; with a present file,
once the read they start completes, `selectedImage` is the newly decoded value,
whatever it was before, and `result`, `confidence`, `processing` and `filter`
are as they were (`dragOver` too after `onFileSelected`, cleared after
`onDrop`). -/
theorem intake_frame (s : State) (f : File) :
    onFileSelected s none = s ∧
      onDrop s none = { s with dragOver := false } ∧
      step s (.fileSelected none) = s ∧
      (step (onFileSelected s (some f)) (.readerLoad s.pendingReads.length)
        = { s with selectedImage := some f.dataUrl }) ∧
      (step (onDrop s (some f)) (.readerLoad s.pendingReads.length)
        = { s with selectedImage := some f.dataUrl, dragOver := false }) ∧
      (let s' := step (onFileSelected s (some f)) (.readerLoad s.pendingReads.length)
       s'.selectedImage = some f.dataUrl ∧ s'.result = s.result ∧
         s'.confidence = s.confidence ∧ s'.processing = s.processing ∧
         s'.filter = s.filter) ∧
      (let s' := step (onDrop s (some f)) (.readerLoad s.pendingReads.length)
       s'.selectedImage = some f.dataUrl ∧ s'.result = s.result ∧
         s'.confidence = s.confidence ∧ s'.processing = s.processing ∧
         s'.filter = s.filter) := by
  have h1 : step (onFileSelected s (some f)) (.readerLoad s.pendingReads.length)
      = { s with selectedImage := some f.dataUrl } := by
    simp [step, onFileSelected, readerOnload, List.eraseIdx_append_of_length_le]
  have h2 : step (onDrop s (some f)) (.readerLoad s.pendingReads.length)
      = { s with selectedImage := some f.dataUrl, dragOver := false } := by
    simp [step, onDrop, onFileSelected, readerOnload, List.eraseIdx_append_of_length_le]
  refine ⟨rfl, rfl, rfl, h1, h2, ?_, ?_⟩
  · simp [h1]
  · simp [h2]

/-- C15, as stated, fails: the result "No Cancer" of the first record is none
of the two labels "Cancer Detected" and "No Cancer Detected". -/
theorem patientRows_label_counterexample :
    patientRows.map (fun r => r.result) =
        ["No Cancer".toList, "Cancer Detected".toList, "No Cancer".toList,
          "Cancer Detected".toList] ∧
      ¬ ∀ r ∈ patientRows, r.result = labelCancer ∨ r.result = labelNoCancer := by
  refine ⟨rfl, fun h => ?_⟩
  have h1 := h _ (List.mem_cons_self _ _)
  revert h1
  decide

/-- C15, amended: `patientRows` has exactly four entries, the result of every
entry is "Cancer Detected" or "No Cancer", and the confidence of every entry is
a fraction `c` with `0 ≤ c ≤ 1`. -/
theorem patientRows_shape :
    patientRows.length = 4 ∧
      (∀ r ∈ patientRows,
        r.result = "Cancer Detected".toList ∨ r.result = "No Cancer".toList) ∧
      ∀ r ∈ patientRows, 0 ≤ r.confidence ∧ r.confidence ≤ 1 := by
  refine ⟨rfl, by decide, ?_⟩
  intro r hr
  simp only [patientRows, List.mem_cons, List.mem_singleton, List.mem_nil_iff, or_false] at hr
  rcases hr with rfl | rfl | rfl | rfl <;> norm_num

/-- C16: when `lowercase(s)` is a substring of `lowercase(t)`, every record of
`filteredRows` for the filter `t` is a record of `filteredRows` for the filter
`s`, and the list for `t` is a sublist, in the same order, of the list for `s`.
This holds whatever the host function `toLowerCase` is. -/
theorem filteredRows_narrowing (toLowerCase : JsString → JsString) (s t : JsString)
    (h : toLowerCase s <:+: toLowerCase t) :
    (∀ r ∈ filteredRows toLowerCase t, r ∈ filteredRows toLowerCase s) ∧
      List.Sublist (filteredRows toLowerCase t) (filteredRows toLowerCase s) := by
  have himp : ∀ r : PatientRow, rowMatches toLowerCase t r = true →
      rowMatches toLowerCase s r = true := by
    intro r hr
    rw [rowMatches_iff] at hr ⊢
    rcases hr with hr | hr
    · exact Or.inl (h.trans hr)
    · exact Or.inr (h.trans hr)
  have hsub : List.Sublist (filteredRows toLowerCase t) (filteredRows toLowerCase s) :=
    List.monotone_filter_right _ himp
  exact ⟨fun r hr => hsub.subset hr, hsub⟩

theorem filteredRows_narrowing_witness :
    asciiLower "PT".toList <:+: asciiLower "PT-1001".toList ∧
      (∀ r ∈ filteredRows asciiLower "PT-1001".toList,
        r ∈ filteredRows asciiLower "PT".toList) ∧
      List.Sublist (filteredRows asciiLower "PT-1001".toList)
        (filteredRows asciiLower "PT".toList) :=
  ⟨by decide, filteredRows_narrowing asciiLower "PT".toList "PT-1001".toList (by decide)⟩

end Dashboard
